import Mathlib

/-!
Verification of the `localscope` library (`localscope/__init__.py`): a
decorator that statically analyses a callable's bytecode at decoration time
and rejects reads of non-local, non-allowed names.

The embedding below translates the source into Lean:
  * `Instruction` models a `dis.Instruction` (opname, argval, starts_line);
  * `CodeObject` models a `types.CodeType` together with the code objects
    appearing among its constants (`co_consts`), in order;
  * `scanInstructions` is the instruction loop of `_localscope`;
  * `analyzeCode` / `analyzeConsts` are the recursive body of `_localscope`
    (argument seeding, instruction scan, recursion over constant code
    objects with `allow_closure=True`);
  * `safelyGetClosureNonlocals` models `_safely_get_closure_vars(...).nonlocals`;
  * `localscopeRun` models `_localscope` applied to a `types.FunctionType`
    at top level, raising `LocalscopeException` when violations were found.

Python sets are modelled as lists consulted only through membership; Python
dicts as association lists consulted through first-match `List.lookup`
(the dict-merge `{**a, **b}` puts the entries of `b` first). The builtin
namespace (`hasattr(builtins, name)`) is a parameter `builtinNames`.
-/

/-- model of `dis.Instruction`: we keep the fields that `_localscope` reads
(`opname`, `argval`, and the line information `starts_line`). -/
structure Instruction where
  opname : String
  argval : String
  starts_line : Option Nat
deriving Repr, DecidableEq

/-- model of Python runtime values, as far as the analysis distinguishes
them: modules, functions, classes, strings, integers, `None`, the
`EmptyCell` sentinel of `localscope`, and opaque other objects. -/
inductive PyValue where
  | module (name : String)
  | pyFunction (name : String)
  | pyClass (name : String)
  | str (s : String)
  | int (n : Int)
  | noneVal
  | emptyCellSentinel
  | obj (tag : String)
deriving Repr, DecidableEq

/-- model of `inspect.ismodule`, the default admission predicate. -/
def ismodule : PyValue → Bool
  | .module _ => true
  | _ => false

/-- model of `inspect.isfunction`. -/
def isfunction : PyValue → Bool
  | .pyFunction _ => true
  | _ => false

/-- model of `inspect.isclass`. -/
def isclass : PyValue → Bool
  | .pyClass _ => true
  | _ => false

/-- model of `_allow_mfc`: allows modules, functions, and classes. -/
def allow_mfc (x : PyValue) : Bool :=
  ismodule x || isfunction x || isclass x

/-- model of `types.CodeType`: `co_name`, `co_argcount`, `co_kwonlyargcount`,
the `CO_VARARGS` bit of `co_flags`, `co_varnames`, `co_freevars`, the
instruction stream `dis.get_instructions(code)`, and the code objects among
`co_consts` (`[c for c in code.co_consts if isinstance(c, types.CodeType)]`),
in order. -/
inductive CodeObject where
  | mk (co_name : String)
       (co_argcount co_kwonlyargcount : Nat)
       (co_varargs : Bool)
       (co_varnames co_freevars : List String)
       (instructions : List Instruction)
       (co_consts_codes : List CodeObject)
deriving Repr

/-- instruction stream of a code object. -/
def CodeObject.instructions : CodeObject → List Instruction
  | .mk _ _ _ _ _ _ instrs _ => instrs

/-- code objects among the constants of a code object. -/
def CodeObject.constCodes : CodeObject → List CodeObject
  | .mk _ _ _ _ _ _ _ consts => consts

/-- free-variable names of a code object. -/
def CodeObject.freevars : CodeObject → List String
  | .mk _ _ _ _ _ fv _ _ => fv

/-- argument names of a code object: the prefix
`co_varnames[: co_argcount + co_kwonlyargcount + has_varargs]` that
`_localscope` adds to the allowed set. -/
def CodeObject.argNames : CodeObject → List String
  | .mk _ argc kwonly va vn _ _ _ =>
    vn.take (argc + kwonly + (if va then 1 else 0))

/-- model of one entry of the `_errors` list of `_localscope`: the message,
the offending variable name, the name of the owning code object, the opname
of the offending instruction, and the best-known line number. -/
structure Violation where
  message : String
  varName : String
  coName : String
  opname : String
  lineno : Option Nat
deriving Repr, DecidableEq

/-- model of the instruction loop of `_localscope` (`for instruction in
dis.get_instructions(code)`), threading the mutable `allowed` set, the
`_errors` list, and the running `lineno`. -/
def scanInstructions (builtinNames : List String) (predicate : PyValue → Bool)
    (globals : List (String × PyValue)) (allowClosure : Bool) (coName : String) :
    List Instruction → List String → List Violation → Option Nat →
    List String × List Violation
  | [], allowed, errors, _ => (allowed, errors)
  | ins :: rest, allowed, errors, lineno =>
    let lineno := match ins.starts_line with
      | some l => some l
      | none => lineno
    let name := ins.argval
    if ins.opname = "LOAD_GLOBAL" ∨ (allowClosure = false ∧ ins.opname = "LOAD_DEREF") then
      if name ∈ allowed ∨ name ∈ builtinNames then
        scanInstructions builtinNames predicate globals allowClosure coName
          rest allowed errors lineno
      else
        match globals.lookup name with
        | none =>
          scanInstructions builtinNames predicate globals allowClosure coName
            rest allowed
            (errors ++ [⟨s!"`{name}` is not in globals", name, coName, ins.opname, lineno⟩])
            lineno
        | some value =>
          if predicate value then
            scanInstructions builtinNames predicate globals allowClosure coName
              rest allowed errors lineno
          else
            scanInstructions builtinNames predicate globals allowClosure coName
              rest allowed
              (errors ++
                [⟨s!"`{name}` is not a permitted global", name, coName, ins.opname, lineno⟩])
              lineno
    else if ins.opname = "STORE_DEREF" then
      scanInstructions builtinNames predicate globals allowClosure coName
        rest (allowed ++ [name]) errors lineno
    else
      scanInstructions builtinNames predicate globals allowClosure coName
        rest allowed errors lineno

mutual
/-- model of the body of `_localscope` for one code object: seed the
argument names into `allowed`, scan the instruction stream, then recurse
into the constant code objects. Returns the resulting `allowed` set and
`_errors` list. -/
def analyzeCode (builtinNames : List String) (predicate : PyValue → Bool)
    (globals : List (String × PyValue)) (allowClosure : Bool)
    (code : CodeObject) (allowed : List String) (errors : List Violation) :
    List String × List Violation :=
  match code with
  | .mk coName argc kwonly va vn fv instrs consts =>
    let allowed := allowed ++ (CodeObject.mk coName argc kwonly va vn fv instrs consts).argNames
    let state := scanInstructions builtinNames predicate globals allowClosure coName
      instrs allowed errors none
    analyzeConsts builtinNames predicate globals consts state.1 state.2

/-- model of the recursion of `_localscope` over the constant code objects:
each is analyzed with the same globals, the accumulating allowed set, and
`allow_closure=True`. -/
def analyzeConsts (builtinNames : List String) (predicate : PyValue → Bool)
    (globals : List (String × PyValue)) :
    List CodeObject → List String → List Violation → List String × List Violation
  | [], allowed, errors => (allowed, errors)
  | c :: rest, allowed, errors =>
    let state := analyzeCode builtinNames predicate globals true c allowed errors
    analyzeConsts builtinNames predicate globals rest state.1 state.2
end

/-- model of the outcome of reading `cell.cell_contents` for one closure
cell: either a value, or a `ValueError` with a message. -/
inductive CellRead where
  | ok (v : PyValue)
  | valueError (msg : String)
deriving Repr, DecidableEq

/-- model of the per-cell branch of `_safely_get_closure_vars`: an empty
cell becomes the `EmptyCell` sentinel, any other `ValueError` is re-raised
as a `LocalscopeException` (modelled as `.error`). -/
def resolveCellContents (var : String) (r : CellRead) : Except String PyValue :=
  match r with
  | .ok v => .ok v
  | .valueError msg =>
    if msg = "Cell is empty" then .ok .emptyCellSentinel
    else .error (s!"Failed to retrieve `{var}` from closure.")

/-- model of a `types.FunctionType`: its code object, its `__globals__`
mapping, and its `__closure__` (a list of cell reads zipped against
`co_freevars`, or `none` when the function has no closure). -/
structure PyFunction where
  func_code : CodeObject
  func_globals : List (String × PyValue)
  closure : Option (List CellRead)
deriving Repr

/-- resolution loop of `_safely_get_closure_vars` over
`zip(code.co_freevars, func.__closure__)`. -/
def resolveCellPairs : List (String × CellRead) → Except String (List (String × PyValue))
  | [] => .ok []
  | (var, r) :: rest =>
    match resolveCellContents var r with
    | .error e => .error e
    | .ok v =>
      match resolveCellPairs rest with
      | .error e => .error e
      | .ok tail => .ok ((var, v) :: tail)

/-- model of `_safely_get_closure_vars(func).nonlocals`: empty closure
gives an empty mapping; otherwise each free variable is mapped to its cell
contents, with `EmptyCell` substituted for empty cells, and any other
resolution failure propagated. -/
def safelyGetClosureNonlocals (f : PyFunction) : Except String (List (String × PyValue)) :=
  match f.closure with
  | none => .ok []
  | some cells => resolveCellPairs (f.func_code.freevars.zip cells)

/-- model of the error raised by decoration: either the aggregated
`LocalscopeException(_errors)` from the analysis, or the
`LocalscopeException` raised inside `_safely_get_closure_vars`. -/
inductive LsError where
  | localscopeError (entries : List Violation)
  | closureError (msg : String)
deriving Repr

/-- model of `LocalscopeException.__init__` computing the `.vars`
attribute: the loop appends `variable_name` for each entry, in order. -/
def localscopeExceptionVars (entries : List Violation) : List String :=
  entries.foldl (fun acc e => acc ++ [e.varName]) []

/-- model of `_localscope` applied to a `types.FunctionType` at top level:
resolve the closure, merge `{**func.__globals__, **nonlocals}` (nonlocals
shadow globals), analyze the code object, and raise the aggregated
exception exactly when the error list is non-empty; otherwise return the
function itself. -/
def localscopeRun (builtinNames : List String) (predicate : PyValue → Bool)
    (allowed : List String) (allowClosure : Bool) (f : PyFunction) :
    Except LsError PyFunction :=
  match safelyGetClosureNonlocals f with
  | .error msg => .error (.closureError msg)
  | .ok nonlocals =>
    let g := nonlocals ++ f.func_globals
    match analyzeCode builtinNames predicate g allowClosure f.func_code allowed [] with
    | (_, []) => .ok f
    | (_, e :: rest) => .error (.localscopeError (e :: rest))

/-- model of the public wrapper `localscope` once the `allowed` argument
has been normalised to a list of names: the predicate defaults to
`inspect.ismodule`. -/
def localscopeDecorate (builtinNames : List String)
    (predicate : Option (PyValue → Bool)) (allowed : List String)
    (allowClosure : Bool) (f : PyFunction) : Except LsError PyFunction :=
  localscopeRun builtinNames (predicate.getD ismodule) allowed allowClosure f

/-! ## Derived name sets and membership of instructions in a code tree -/

/-- names stored by `STORE_DEREF` instructions in one instruction stream,
in order: exactly the names `scanInstructions` adds to the allowed set. -/
def storeDerefNames (instrs : List Instruction) : List String :=
  (instrs.filter (fun i => i.opname == "STORE_DEREF")).map (·.argval)

mutual
/-- all names a code tree can add to the allowed set during analysis:
argument names, `STORE_DEREF` targets, and the same for nested code
objects. -/
def introducedNames : CodeObject → List String
  | .mk nm argc kw va vn fv instrs consts =>
    (CodeObject.mk nm argc kw va vn fv instrs consts).argNames
      ++ storeDerefNames instrs ++ introducedNamesList consts

/-- union of `introducedNames` over a list of code objects. -/
def introducedNamesList : List CodeObject → List String
  | [] => []
  | c :: rest => introducedNames c ++ introducedNamesList rest
end

mutual
/-- the instruction occurs somewhere in the code tree: in the code
object's own instruction stream or in a nested constant code object. -/
def InstrInCode (ins : Instruction) : CodeObject → Prop
  | .mk _ _ _ _ _ _ instrs consts => ins ∈ instrs ∨ InstrInConsts ins consts

/-- the instruction occurs in one of the code objects of the list. -/
def InstrInConsts (ins : Instruction) : List CodeObject → Prop
  | [] => False
  | c :: rest => InstrInCode ins c ∨ InstrInConsts ins rest
end

/-- message the scan records for a forbidden name, as a function of the
globals snapshot: "not in globals" when absent, "not a permitted global"
when present. -/
def violationMessage (g : List (String × PyValue)) (n : String) : String :=
  match g.lookup n with
  | none => s!"`{n}` is not in globals"
  | some _ => s!"`{n}` is not a permitted global"

/-- the name is flagged once it reaches the globals lookup: either it is
absent from the snapshot, or its value fails the predicate. -/
def globalViolation (g : List (String × PyValue)) (p : PyValue → Bool) (n : String) : Prop :=
  match g.lookup n with
  | none => True
  | some v => p v = false

/-- formalisation of the class of callables in the spec sentence "whose
only name reads are arguments, builtins, or locally assigned names": the
analysis run against an empty globals snapshot (and a predicate that
admits nothing) produces no violation, which holds exactly when every
forbidden name load passes the allowed-set/builtin test. -/
def refersOnlyToLocalNames (b : List String) (ac : Bool) (a0 : List String)
    (c : CodeObject) : Prop :=
  (analyzeCode b (fun _ => false) [] ac c a0 []).2 = []

/-- model of the parameterized decorator returned by
`ft.partial(localscope, allow_closure=..., allowed=..., predicate=...)`:
the policy values stored in the partial. -/
structure PartialDecorator where
  predicate : PyValue → Bool
  allowed : List String
  allowClosure : Bool

/-- allowed set with which a decoration through a stored partial starts:
on re-entry `localscope` executes `allowed = set(allowed) if allowed else
set()`, a fresh copy of the stored names, regardless of any earlier
decoration through the same partial. -/
def decorationInitialAllowed (d : PartialDecorator) : List String := d.allowed

/-- applying a stored partial decorator to a function. -/
def applyPartialDecorator (b : List String) (d : PartialDecorator)
    (f : PyFunction) : Except LsError PyFunction :=
  localscopeRun b d.predicate (decorationInitialAllowed d) d.allowClosure f

/-- final contents of the fresh allowed set mutated during one decoration
(argument names and stored cell variables accumulate into it). -/
def decorationFinalAllowed (b : List String) (d : PartialDecorator)
    (f : PyFunction) : List String :=
  match safelyGetClosureNonlocals f with
  | .error _ => decorationInitialAllowed d
  | .ok nl =>
    (analyzeCode b d.predicate (nl ++ f.func_globals) d.allowClosure
      f.func_code (decorationInitialAllowed d) []).1

/-- names discovered during one decoration: members of the final allowed
set that were not among the decorator's stored allowed names. -/
def newlyDiscoveredNames (b : List String) (d : PartialDecorator)
    (f : PyFunction) : List String :=
  (decorationFinalAllowed b d f).filter (fun n => decide (n ∉ d.allowed))

/-- two successive decorations through the same stored partial decorator. -/
def decorateTwice (b : List String) (d : PartialDecorator)
    (f1 f2 : PyFunction) : Except LsError PyFunction × Except LsError PyFunction :=
  (applyPartialDecorator b d f1, applyPartialDecorator b d f2)

/-- small model of the ambient builtin namespace used for concrete
examples: a few attribute names of the `builtins` module. -/
def defaultBuiltins : List String :=
  ["print", "range", "len", "zip", "list", "sum", "super", "isinstance"]

/-- concrete example: a function that reads only its argument, a builtin
and a locally stored cell variable. -/
def cleanFn : PyFunction where
  func_code := .mk "clean" 1 0 false ["a"] []
    [⟨"LOAD_FAST", "a", some 1⟩, ⟨"LOAD_GLOBAL", "print", some 2⟩,
     ⟨"STORE_DEREF", "x", some 3⟩, ⟨"LOAD_DEREF", "x", some 4⟩] []
  func_globals := [("q", .str "hello")]
  closure := none

/-- concrete example: a function reading a module-level name that is
absent from its globals (`test_missing_global`). -/
def missingGlobalFn : PyFunction where
  func_code := .mk "func" 0 0 false [] [] [⟨"LOAD_GLOBAL", "never_declared", some 20⟩] []
  func_globals := []
  closure := none

/-- concrete example: a function reading the module-level name `a` which
is bound to a string (`test_forbidden_global` and the spec scenario). -/
def forbiddenGlobalFn : PyFunction where
  func_code := .mk "return_forbidden_global" 0 0 false [] []
    [⟨"LOAD_GLOBAL", "a", some 1⟩] []
  func_globals := [("a", .str "hello")]
  closure := none

/-- concrete example: a function whose only read is a free variable bound
in the enclosing scope to a module. -/
def moduleClosureFn : PyFunction where
  func_code := .mk "inner" 0 0 false [] ["m"] [⟨"LOAD_DEREF", "m", some 1⟩] []
  func_globals := []
  closure := some [.ok (.module "math")]

/-- concrete example: a function whose only read is a free variable bound
in the enclosing scope to a string. -/
def strClosureFn : PyFunction where
  func_code := .mk "inner" 0 0 false [] ["s"] [⟨"LOAD_DEREF", "s", some 1⟩] []
  func_globals := []
  closure := some [.ok (.str "hello")]

/-- concrete example: a wrapper whose nested constant code object reads a
forbidden module-level name (`test_recursive_without_call`). -/
def nestedViolationFn : PyFunction where
  func_code := .mk "wrapper" 0 0 false [] [] []
    [.mk "return_forbidden_global" 0 0 false [] []
      [⟨"LOAD_GLOBAL", "forbidden_global", some 3⟩] []]
  func_globals := [("forbidden_global", .str "uuid")]
  closure := none

/-- concrete example: a function with two violating global reads. -/
def twoViolationsFn : PyFunction where
  func_code := .mk "print_ab" 0 0 false [] []
    [⟨"LOAD_GLOBAL", "a", some 1⟩, ⟨"LOAD_GLOBAL", "b", some 2⟩] []
  func_globals := [("a", .str "hello")]
  closure := none

/-- concrete example: a method using zero-argument `super()`: the compiler
creates an implicit `__class__` free variable whose cell is still empty at
decoration time, and the body loads the builtin `super`. -/
def superMethodFn : PyFunction where
  func_code := .mk "foo" 1 0 false ["self"] ["__class__"]
    [⟨"LOAD_GLOBAL", "super", some 1⟩] []
  func_globals := []
  closure := some [.valueError "Cell is empty"]

/-- concrete example: a function loading the name `print` while its
module globals bind `print` to a string that the default predicate
rejects. -/
def builtinShadowFn : PyFunction where
  func_code := .mk "shadow" 0 0 false [] [] [⟨"LOAD_GLOBAL", "print", some 1⟩] []
  func_globals := [("print", .str "shadowed")]
  closure := none

/-- concrete example: a code object with one argument that stores a cell
variable and then reads an unresolvable global. -/
def storeAndViolateCode : CodeObject :=
  .mk "h" 1 0 false ["arg"] []
    [⟨"STORE_DEREF", "x", some 1⟩, ⟨"LOAD_GLOBAL", "bad", some 2⟩] []

/-- induction principle for the code-object tree: to prove a property of
every code object it suffices to prove it for a node assuming it for all
nested constant code objects. -/
def CodeObject.induction {P : CodeObject → Prop}
    (step : ∀ nm argc kw va vn fv instrs consts,
      (∀ c ∈ consts, P c) → P (.mk nm argc kw va vn fv instrs consts)) :
    ∀ c, P c
  | .mk nm argc kw va vn fv instrs consts =>
    step nm argc kw va vn fv instrs consts
      (fun c hc => CodeObject.induction step c)
termination_by c => sizeOf c
decreasing_by
  have h := List.sizeOf_lt_of_mem hc
  simp only [CodeObject.mk.sizeOf_spec]
  omega

/-! ## Lemmas about the instruction scan -/

theorem scanInstructions_allowed (b : List String) (p : PyValue → Bool)
    (g : List (String × PyValue)) (ac : Bool) (cn : String) :
    ∀ (instrs : List Instruction) (a : List String) (e : List Violation) (lin : Option Nat),
      (scanInstructions b p g ac cn instrs a e lin).1 = a ++ storeDerefNames instrs := by
  intro instrs
  induction instrs with
  | nil => intro a e lin; simp [scanInstructions, storeDerefNames]
  | cons ins rest ih =>
    intro a e lin
    have hsd : ∀ tail, storeDerefNames (ins :: tail) =
        (if ins.opname == "STORE_DEREF" then [ins.argval] else []) ++ storeDerefNames tail := by
      intro tail
      by_cases h : ins.opname == "STORE_DEREF" <;>
        simp [storeDerefNames, List.filter, h]
    simp only [scanInstructions]
    split
    · rename_i hforb
      have hne : (ins.opname == "STORE_DEREF") = false := by
        rcases hforb with h | ⟨_, h⟩ <;> simp [h]
      split
      · rw [ih, hsd, hne]; simp
      · split
        · rw [ih, hsd, hne]; simp
        · split
          · rw [ih, hsd, hne]; simp
          · rw [ih, hsd, hne]; simp
    · split
      · rename_i hstore
        rw [ih, hsd]
        simp [hstore, List.append_assoc]
      · rename_i hstore
        have hne : (ins.opname == "STORE_DEREF") = false := by simp [hstore]
        rw [ih, hsd, hne]; simp

theorem scanInstructions_errors_append (b : List String) (p : PyValue → Bool)
    (g : List (String × PyValue)) (ac : Bool) (cn : String) :
    ∀ (instrs : List Instruction) (a : List String) (e : List Violation) (lin : Option Nat),
      (scanInstructions b p g ac cn instrs a e lin).2 =
        e ++ (scanInstructions b p g ac cn instrs a [] lin).2 := by
  intro instrs
  induction instrs with
  | nil => intro a e lin; simp [scanInstructions]
  | cons ins rest ih =>
    intro a e lin
    simp only [scanInstructions]
    split
    · split
      · exact ih ..
      · split
        · rw [ih, List.nil_append, ih _ [_]]; simp
        · split
          · exact ih ..
          · rw [ih, List.nil_append, ih _ [_]]; simp
    · split
      · exact ih ..
      · exact ih ..

/-! ## Lemmas about the recursive analysis -/

theorem analyzeConsts_allowed_of (b : List String) (p : PyValue → Bool)
    (g : List (String × PyValue)) :
    ∀ (cs : List CodeObject),
      (∀ c ∈ cs, ∀ (a : List String) (e : List Violation),
        (analyzeCode b p g true c a e).1 = a ++ introducedNames c) →
      ∀ (a : List String) (e : List Violation),
        (analyzeConsts b p g cs a e).1 = a ++ introducedNamesList cs := by
  intro cs
  induction cs with
  | nil => intro _ a e; simp [analyzeConsts, introducedNamesList]
  | cons c rest ih =>
    intro H a e
    simp only [analyzeConsts]
    rw [ih (fun x hx => H x (List.mem_cons_of_mem _ hx)),
        H c (List.mem_cons_self _ _)]
    simp [introducedNamesList, List.append_assoc]

theorem analyzeCode_allowed (b : List String) (p : PyValue → Bool)
    (g : List (String × PyValue)) :
    ∀ (c : CodeObject) (ac : Bool) (a : List String) (e : List Violation),
      (analyzeCode b p g ac c a e).1 = a ++ introducedNames c := by
  intro c
  induction c using CodeObject.induction with
  | step nm argc kw va vn fv instrs consts ih =>
    intro ac a e
    simp only [analyzeCode]
    rw [analyzeConsts_allowed_of b p g consts (fun x hx => ih x hx true),
        scanInstructions_allowed]
    simp [introducedNames, List.append_assoc]

theorem analyzeConsts_allowed (b : List String) (p : PyValue → Bool)
    (g : List (String × PyValue)) (cs : List CodeObject)
    (a : List String) (e : List Violation) :
    (analyzeConsts b p g cs a e).1 = a ++ introducedNamesList cs :=
  analyzeConsts_allowed_of b p g cs
    (fun x _ => analyzeCode_allowed b p g x true) a e

theorem analyzeConsts_errors_append_of (b : List String) (p : PyValue → Bool)
    (g : List (String × PyValue)) :
    ∀ (cs : List CodeObject),
      (∀ c ∈ cs, ∀ (a : List String) (e : List Violation),
        (analyzeCode b p g true c a e).2 = e ++ (analyzeCode b p g true c a []).2) →
      ∀ (a : List String) (e : List Violation),
        (analyzeConsts b p g cs a e).2 = e ++ (analyzeConsts b p g cs a []).2 := by
  intro cs
  induction cs with
  | nil => intro _ a e; simp [analyzeConsts]
  | cons c rest ih =>
    intro H a e
    have hrest := ih (fun x hx => H x (List.mem_cons_of_mem _ hx))
    simp only [analyzeConsts]
    rw [analyzeCode_allowed, analyzeCode_allowed, H c (List.mem_cons_self _ _),
        hrest, hrest _ ((analyzeCode b p g true c a []).2)]
    simp [List.append_assoc]

theorem analyzeCode_errors_append (b : List String) (p : PyValue → Bool)
    (g : List (String × PyValue)) :
    ∀ (c : CodeObject) (ac : Bool) (a : List String) (e : List Violation),
      (analyzeCode b p g ac c a e).2 = e ++ (analyzeCode b p g ac c a []).2 := by
  intro c
  induction c using CodeObject.induction with
  | step nm argc kw va vn fv instrs consts ih =>
    intro ac a e
    have hconsts := analyzeConsts_errors_append_of b p g consts (fun x hx => ih x hx true)
    simp only [analyzeCode]
    rw [scanInstructions_allowed, scanInstructions_allowed,
        scanInstructions_errors_append, hconsts, hconsts _
          ((scanInstructions b p g ac nm instrs
            (a ++ (CodeObject.mk nm argc kw va vn fv instrs consts).argNames) [] none).2)]
    simp [List.append_assoc]

theorem analyzeConsts_errors_append (b : List String) (p : PyValue → Bool)
    (g : List (String × PyValue)) (cs : List CodeObject)
    (a : List String) (e : List Violation) :
    (analyzeConsts b p g cs a e).2 = e ++ (analyzeConsts b p g cs a []).2 :=
  analyzeConsts_errors_append_of b p g cs
    (fun x _ => analyzeCode_errors_append b p g x true) a e

theorem scanInstructions_errors_characterize (b : List String) (p : PyValue → Bool)
    (g : List (String × PyValue)) (ac : Bool) (cn : String) :
    ∀ (instrs : List Instruction) (a : List String) (lin : Option Nat),
      ∀ v ∈ (scanInstructions b p g ac cn instrs a [] lin).2,
        (v.opname = "LOAD_GLOBAL" ∨ (ac = false ∧ v.opname = "LOAD_DEREF")) ∧
        v.varName ∉ a ∧ v.varName ∉ b ∧ v.coName = cn ∧
        globalViolation g p v.varName ∧ v.message = violationMessage g v.varName := by
  intro instrs
  induction instrs with
  | nil => intro a lin v hv; simp [scanInstructions] at hv
  | cons ins rest ih =>
    intro a lin v hv
    simp only [scanInstructions] at hv
    split at hv
    · rename_i hforb
      split at hv
      · exact ih a _ v hv
      · rename_i hnall
        push_neg at hnall
        split at hv
        · rename_i hlook
          rw [scanInstructions_errors_append] at hv
          rcases List.mem_append.mp hv with hv | hv
          · simp only [List.nil_append, List.mem_singleton] at hv
            subst hv
            refine ⟨hforb, hnall.1, hnall.2, rfl, ?_, ?_⟩
            · simp [globalViolation, hlook]
            · simp [violationMessage, hlook]
          · exact ih a _ v hv
        · rename_i val hlook
          split at hv
          · exact ih a _ v hv
          · rename_i hpred
            rw [scanInstructions_errors_append] at hv
            rcases List.mem_append.mp hv with hv | hv
            · simp only [List.nil_append, List.mem_singleton] at hv
              subst hv
              refine ⟨hforb, hnall.1, hnall.2, rfl, ?_, ?_⟩
              · simp only [globalViolation, hlook]
                exact Bool.eq_false_iff.mpr hpred
              · simp [violationMessage, hlook]
            · exact ih a _ v hv
    · split at hv
      · have h := ih (a ++ [ins.argval]) _ v hv
        refine ⟨h.1, fun hmem => h.2.1 (List.mem_append_left _ hmem), h.2.2⟩
      · exact ih a _ v hv

theorem analyzeCode_errors_characterize (b : List String) (p : PyValue → Bool)
    (g : List (String × PyValue)) :
    ∀ (c : CodeObject) (ac : Bool) (a : List String),
      ∀ v ∈ (analyzeCode b p g ac c a []).2,
        (v.opname = "LOAD_GLOBAL" ∨ (ac = false ∧ v.opname = "LOAD_DEREF")) ∧
        v.varName ∉ a ∧ v.varName ∉ c.argNames ∧ v.varName ∉ b ∧
        globalViolation g p v.varName ∧ v.message = violationMessage g v.varName := by
  intro c
  induction c using CodeObject.induction with
  | step nm argc kw va vn fv instrs consts ih =>
    intro ac a v hv
    have hconsts :
        ∀ (a' : List String), ∀ v ∈ (analyzeConsts b p g consts a' []).2,
          v.opname = "LOAD_GLOBAL" ∧ v.varName ∉ a' ∧ v.varName ∉ b ∧
          globalViolation g p v.varName ∧ v.message = violationMessage g v.varName := by
      clear hv
      induction consts with
      | nil => intro a' v hv; simp [analyzeConsts] at hv
      | cons c rest ihc =>
        intro a' v hv
        simp only [analyzeConsts] at hv
        rw [analyzeConsts_errors_append, analyzeCode_allowed] at hv
        rcases List.mem_append.mp hv with hv | hv
        · have h := ih c (List.mem_cons_self _ _) true a' v hv
          rcases h.1 with hop | ⟨hfalse, _⟩
          · exact ⟨hop, h.2.1, h.2.2.2⟩
          · cases hfalse
        · have h := ihc (fun x hx => ih x (List.mem_cons_of_mem _ hx)) _ v hv
          exact ⟨h.1, fun hmem => h.2.1 (List.mem_append_left _ hmem), h.2.2⟩
    simp only [analyzeCode] at hv
    rw [analyzeConsts_errors_append, scanInstructions_allowed,
        scanInstructions_errors_append, List.nil_append] at hv
    rcases List.mem_append.mp hv with hv | hv
    · obtain ⟨h1, h2, h3, -, h5, h6⟩ :=
        scanInstructions_errors_characterize b p g ac nm instrs _ none v hv
      refine ⟨h1, ?_, ?_, h3, h5, h6⟩
      · exact fun hmem => h2 (List.mem_append_left _ hmem)
      · intro hmem
        exact h2 (List.mem_append_right _ (by simpa [CodeObject.argNames] using hmem))
    · have h := hconsts _ v hv
      refine ⟨Or.inl h.1, ?_, ?_, h.2.2⟩
      · intro hmem
        exact h.2.1 (by simp [hmem])
      · intro hmem
        refine h.2.1 ?_
        simp only [List.mem_append]
        left; right
        simpa [CodeObject.argNames] using hmem

theorem analyzeConsts_errors_characterize (b : List String) (p : PyValue → Bool)
    (g : List (String × PyValue)) :
    ∀ (cs : List CodeObject) (a : List String),
      ∀ v ∈ (analyzeConsts b p g cs a []).2,
        v.opname = "LOAD_GLOBAL" ∧ v.varName ∉ a ∧ v.varName ∉ b ∧
        globalViolation g p v.varName ∧ v.message = violationMessage g v.varName := by
  intro cs
  induction cs with
  | nil => intro a v hv; simp [analyzeConsts] at hv
  | cons c rest ih =>
    intro a v hv
    simp only [analyzeConsts] at hv
    rw [analyzeConsts_errors_append, analyzeCode_allowed] at hv
    rcases List.mem_append.mp hv with hv | hv
    · obtain ⟨h1, h2, -, h4, h5, h6⟩ := analyzeCode_errors_characterize b p g c true a v hv
      rcases h1 with hop | ⟨hfalse, _⟩
      · exact ⟨hop, h2, h4, h5, h6⟩
      · cases hfalse
    · have h := ih _ v hv
      exact ⟨h.1, fun hmem => h.2.1 (List.mem_append_left _ hmem), h.2.2⟩

/-! ## Presence lemmas: a forbidden load that reaches the globals check is
always reported -/

theorem scanInstructions_violation_present (b : List String) (p : PyValue → Bool)
    (g : List (String × PyValue)) (ac : Bool) (cn : String) (ins : Instruction) :
    ∀ (instrs : List Instruction) (a : List String) (e : List Violation) (lin : Option Nat),
      ins ∈ instrs →
      (ins.opname = "LOAD_GLOBAL" ∨ (ac = false ∧ ins.opname = "LOAD_DEREF")) →
      ins.argval ∉ a ++ storeDerefNames instrs →
      ins.argval ∉ b →
      globalViolation g p ins.argval →
      ∃ v ∈ (scanInstructions b p g ac cn instrs a e lin).2,
        v.varName = ins.argval ∧ v.opname = ins.opname ∧ v.coName = cn ∧
        v.message = violationMessage g ins.argval := by
  intro instrs
  induction instrs with
  | nil => intro a e lin hmem; cases hmem
  | cons hd rest ih =>
    intro a e lin hmem hforb hnall hnb hviol
    have hnall_a : ins.argval ∉ a := fun h => hnall (List.mem_append_left _ h)
    have hnall_sd : ins.argval ∉ storeDerefNames (hd :: rest) :=
      fun h => hnall (List.mem_append_right _ h)
    have hsd_cons : ∀ tail, storeDerefNames (hd :: tail) =
        (if hd.opname == "STORE_DEREF" then [hd.argval] else []) ++ storeDerefNames tail := by
      intro tail
      by_cases h : hd.opname == "STORE_DEREF" <;> simp [storeDerefNames, List.filter, h]
    rcases List.mem_cons.mp hmem with heq | hmem
    · subst heq
      simp only [scanInstructions]
      rw [if_pos hforb, if_neg (by push_neg; exact ⟨hnall_a, hnb⟩)]
      unfold globalViolation at hviol
      split
      · rename_i hlook
        rw [scanInstructions_errors_append]
        refine ⟨_,
          List.mem_append_left _ (List.mem_append_right _ (List.mem_singleton.mpr rfl)),
          rfl, rfl, rfl, ?_⟩
        simp [violationMessage, hlook]
      · rename_i val hlook
        rw [hlook] at hviol
        rw [if_neg (by simp [hviol])]
        rw [scanInstructions_errors_append]
        refine ⟨_,
          List.mem_append_left _ (List.mem_append_right _ (List.mem_singleton.mpr rfl)),
          rfl, rfl, rfl, ?_⟩
        simp [violationMessage, hlook]
    · simp only [scanInstructions]
      split
      · split
        · exact ih a e _ hmem hforb
            (by rw [hsd_cons] at hnall_sd
                simp only [List.mem_append] at hnall_sd ⊢
                tauto)
            hnb hviol
        · split
          · exact ih a _ _ hmem hforb
              (by rw [hsd_cons] at hnall_sd
                  simp only [List.mem_append] at hnall_sd ⊢
                  tauto)
              hnb hviol
          · split
            · exact ih a e _ hmem hforb
                (by rw [hsd_cons] at hnall_sd
                    simp only [List.mem_append] at hnall_sd ⊢
                    tauto)
                hnb hviol
            · exact ih a _ _ hmem hforb
                (by rw [hsd_cons] at hnall_sd
                    simp only [List.mem_append] at hnall_sd ⊢
                    tauto)
                hnb hviol
      · split
        · rename_i hstore
          refine ih (a ++ [hd.argval]) e _ hmem hforb ?_ hnb hviol
          rw [hsd_cons, if_pos (by simp [hstore])] at hnall_sd
          simp only [List.mem_append, List.mem_singleton] at hnall_sd hnall_a ⊢
          tauto
        · exact ih a e _ hmem hforb
            (by rw [hsd_cons] at hnall_sd
                simp only [List.mem_append] at hnall_sd ⊢
                tauto)
            hnb hviol

theorem analyzeConsts_violation_present_of (b : List String) (p : PyValue → Bool)
    (g : List (String × PyValue)) :
    ∀ (cs : List CodeObject),
      (∀ c ∈ cs, ∀ (ac : Bool) (a : List String) (e : List Violation) (ins : Instruction),
        InstrInCode ins c → ins.opname = "LOAD_GLOBAL" →
        ins.argval ∉ a ++ introducedNames c → ins.argval ∉ b →
        globalViolation g p ins.argval →
        ∃ v ∈ (analyzeCode b p g ac c a e).2,
          v.varName = ins.argval ∧ v.opname = "LOAD_GLOBAL" ∧
          v.message = violationMessage g ins.argval) →
      ∀ (a : List String) (e : List Violation) (ins : Instruction),
        InstrInConsts ins cs → ins.opname = "LOAD_GLOBAL" →
        ins.argval ∉ a ++ introducedNamesList cs → ins.argval ∉ b →
        globalViolation g p ins.argval →
        ∃ v ∈ (analyzeConsts b p g cs a e).2,
          v.varName = ins.argval ∧ v.opname = "LOAD_GLOBAL" ∧
          v.message = violationMessage g ins.argval := by
  intro cs
  induction cs with
  | nil => intro _ a e ins hin; simp only [InstrInConsts] at hin
  | cons c rest ih =>
    intro H a e ins hin hop hnall hnb hviol
    simp only [List.mem_append, introducedNamesList, not_or] at hnall
    simp only [InstrInConsts] at hin
    simp only [analyzeConsts]
    rcases hin with hin | hin
    · obtain ⟨v, hv, hprops⟩ := H c (List.mem_cons_self _ _) true a e ins hin hop
        (by simp only [List.mem_append, not_or]; tauto) hnb hviol
      refine ⟨v, ?_, hprops⟩
      rw [analyzeConsts_errors_append]
      exact List.mem_append_left _ hv
    · refine ih (fun x hx => H x (List.mem_cons_of_mem _ hx)) _ _ ins hin hop ?_ hnb hviol
      rw [analyzeCode_allowed]
      simp only [List.mem_append, not_or]
      tauto

theorem analyzeCode_violation_present (b : List String) (p : PyValue → Bool)
    (g : List (String × PyValue)) :
    ∀ (c : CodeObject) (ac : Bool) (a : List String) (e : List Violation) (ins : Instruction),
      InstrInCode ins c → ins.opname = "LOAD_GLOBAL" →
      ins.argval ∉ a ++ introducedNames c → ins.argval ∉ b →
      globalViolation g p ins.argval →
      ∃ v ∈ (analyzeCode b p g ac c a e).2,
        v.varName = ins.argval ∧ v.opname = "LOAD_GLOBAL" ∧
        v.message = violationMessage g ins.argval := by
  intro c
  induction c using CodeObject.induction with
  | step nm argc kw va vn fv instrs consts ih =>
    intro ac a e ins hin hop hnall hnb hviol
    simp only [List.mem_append, introducedNames, not_or] at hnall
    simp only [InstrInCode] at hin
    simp only [analyzeCode]
    rcases hin with hin | hin
    · obtain ⟨v, hv, h1, h2, -, h3⟩ :=
        scanInstructions_violation_present b p g ac nm ins instrs
          (a ++ (CodeObject.mk nm argc kw va vn fv instrs consts).argNames) e none hin
          (Or.inl hop)
          (by simp only [List.mem_append, not_or]; tauto)
          hnb hviol
      refine ⟨v, ?_, h1, by rw [h2, hop], h3⟩
      rw [analyzeConsts_errors_append]
      exact List.mem_append_left _ hv
    · refine analyzeConsts_violation_present_of b p g consts
        (fun x hx => ih x hx) _ _ ins hin hop ?_ hnb hviol
      rw [scanInstructions_allowed]
      simp only [List.mem_append, not_or]
      tauto

/-! ## Clean-transfer lemmas: when every forbidden load passes the
allowed/builtin test, the globals snapshot and the predicate are never
consulted, so analysis succeeds for any snapshot and predicate -/

theorem scanInstructions_clean_transfer (b : List String) (p0 p : PyValue → Bool)
    (g : List (String × PyValue)) (ac : Bool) (cn : String) :
    ∀ (instrs : List Instruction) (a : List String) (lin lin' : Option Nat),
      (scanInstructions b p0 [] ac cn instrs a [] lin).2 = [] →
      (scanInstructions b p g ac cn instrs a [] lin').2 = [] := by
  intro instrs
  induction instrs with
  | nil => intro a lin lin' _; simp [scanInstructions]
  | cons ins rest ih =>
    intro a lin lin' h
    simp only [scanInstructions, List.lookup] at h ⊢
    split at h
    · rename_i hforb
      split at h
      · rename_i hpass
        rw [if_pos hforb, if_pos hpass]
        exact ih a _ _ h
      · exfalso
        rw [scanInstructions_errors_append] at h
        simp at h
    · rename_i hforb
      rw [if_neg hforb]
      split at h
      · rename_i hstore
        rw [if_pos hstore]
        exact ih _ _ _ h
      · rename_i hstore
        rw [if_neg hstore]
        exact ih a _ _ h

theorem analyzeConsts_clean_transfer_of (b : List String) (p0 p : PyValue → Bool)
    (g : List (String × PyValue)) :
    ∀ (cs : List CodeObject),
      (∀ c ∈ cs, ∀ (ac : Bool) (a : List String),
        (analyzeCode b p0 [] ac c a []).2 = [] →
        (analyzeCode b p g ac c a []).2 = []) →
      ∀ (a : List String),
        (analyzeConsts b p0 [] cs a []).2 = [] →
        (analyzeConsts b p g cs a []).2 = [] := by
  intro cs
  induction cs with
  | nil => intro _ a _; simp [analyzeConsts]
  | cons c rest ih =>
    intro H a h
    simp only [analyzeConsts] at h ⊢
    rw [analyzeConsts_errors_append, analyzeCode_allowed] at h ⊢
    rcases List.append_eq_nil.mp h with ⟨h1, h2⟩
    rw [H c (List.mem_cons_self _ _) true a h1,
        ih (fun x hx => H x (List.mem_cons_of_mem _ hx)) _ h2]
    simp

theorem analyzeCode_clean_transfer (b : List String) (p0 p : PyValue → Bool)
    (g : List (String × PyValue)) :
    ∀ (c : CodeObject) (ac : Bool) (a : List String),
      (analyzeCode b p0 [] ac c a []).2 = [] →
      (analyzeCode b p g ac c a []).2 = [] := by
  intro c
  induction c using CodeObject.induction with
  | step nm argc kw va vn fv instrs consts ih =>
    intro ac a h
    simp only [analyzeCode] at h ⊢
    rw [analyzeConsts_errors_append, scanInstructions_allowed,
        scanInstructions_errors_append] at h ⊢
    simp only [List.nil_append] at h ⊢
    rcases List.append_eq_nil.mp h with ⟨h1, h2⟩
    rw [scanInstructions_clean_transfer b p0 p g ac nm instrs _ none none h1,
        analyzeConsts_clean_transfer_of b p0 p g consts
          (fun x hx => ih x hx) _ h2]
    simp

/-! ## The `.vars` attribute of the aggregated exception -/

theorem localscopeExceptionVars_foldl (entries : List Violation) :
    ∀ (init : List String),
      entries.foldl (fun acc e => acc ++ [e.varName]) init =
        init ++ entries.map (·.varName) := by
  induction entries with
  | nil => intro init; simp
  | cons e rest ih =>
    intro init
    simp only [List.foldl_cons, List.map_cons]
    rw [ih]
    simp

theorem localscopeExceptionVars_eq_map (entries : List Violation) :
    localscopeExceptionVars entries = entries.map (·.varName) := by
  unfold localscopeExceptionVars
  rw [localscopeExceptionVars_foldl]
  simp

/-! ## Run-level lemmas -/

theorem localscopeRun_violation_present (b : List String) (p : PyValue → Bool)
    (a0 : List String) (ac : Bool) (f : PyFunction) (nl : List (String × PyValue))
    (ins : Instruction)
    (hclos : safelyGetClosureNonlocals f = .ok nl)
    (hin : InstrInCode ins f.func_code)
    (hop : ins.opname = "LOAD_GLOBAL")
    (hnall : ins.argval ∉ a0 ++ introducedNames f.func_code)
    (hnb : ins.argval ∉ b)
    (hviol : globalViolation (nl ++ f.func_globals) p ins.argval) :
    ∃ E, localscopeRun b p a0 ac f = .error (.localscopeError E) ∧
      ∃ v ∈ E, v.varName = ins.argval ∧
        v.message = violationMessage (nl ++ f.func_globals) ins.argval := by
  obtain ⟨v, hv, h1, h2, h3⟩ :=
    analyzeCode_violation_present b p (nl ++ f.func_globals) f.func_code ac a0 []
      ins hin hop hnall hnb hviol
  rcases hres : analyzeCode b p (nl ++ f.func_globals) ac f.func_code a0 [] with ⟨A, E⟩
  rw [hres] at hv
  simp only at hv
  cases E with
  | nil => cases hv
  | cons e rest =>
    refine ⟨e :: rest, ?_, v, hv, h1, h3⟩
    simp only [localscopeRun, hclos, hres]

theorem localscopeRun_ok_of_no_errors (b : List String) (p : PyValue → Bool)
    (a0 : List String) (ac : Bool) (f : PyFunction) (nl : List (String × PyValue))
    (hclos : safelyGetClosureNonlocals f = .ok nl)
    (hempty : (analyzeCode b p (nl ++ f.func_globals) ac f.func_code a0 []).2 = []) :
    localscopeRun b p a0 ac f = .ok f := by
  rcases hres : analyzeCode b p (nl ++ f.func_globals) ac f.func_code a0 [] with ⟨A, E⟩
  rw [hres] at hempty
  simp only at hempty
  subst hempty
  simp only [localscopeRun, hclos, hres]

/-! ## Claim theorems -/

/-- C1: for every callable whose name-load instructions refer only to its
arguments, builtin names, or locally assigned names (and whose closure
cells resolve), applying the decorator raises no error and returns the
very same callable unchanged, whatever the predicate, allowed set, and
closure policy are. -/
theorem C1_local_only_callable_returned_unchanged (b : List String)
    (p : PyValue → Bool) (a0 : List String) (ac : Bool) (f : PyFunction)
    (nl : List (String × PyValue))
    (hclos : safelyGetClosureNonlocals f = .ok nl)
    (hlocal : refersOnlyToLocalNames b ac a0 f.func_code) :
    localscopeRun b p a0 ac f = .ok f :=
  localscopeRun_ok_of_no_errors b p a0 ac f nl hclos
    (analyzeCode_clean_transfer b (fun _ => false) p (nl ++ f.func_globals)
      f.func_code ac a0 hlocal)

/-- witness for C1 at a concrete function reading an argument, a builtin
and a locally stored cell variable. -/
theorem C1_local_only_callable_returned_unchanged_witness :
    localscopeRun defaultBuiltins ismodule [] false cleanFn = .ok cleanFn :=
  C1_local_only_callable_returned_unchanged defaultBuiltins ismodule [] false
    cleanFn [] rfl rfl

/-- C2: a global name load whose name is not in the allowed set, not a
builtin, and absent from the globals snapshot makes decoration raise the
aggregated error, and the violation recorded for that name carries the
"not in globals" reason; such a name is always reported. -/
theorem C2_unresolvable_global_reported (b : List String) (p : PyValue → Bool)
    (a0 : List String) (ac : Bool) (f : PyFunction)
    (nl : List (String × PyValue)) (ins : Instruction)
    (hclos : safelyGetClosureNonlocals f = .ok nl)
    (hin : InstrInCode ins f.func_code)
    (hop : ins.opname = "LOAD_GLOBAL")
    (hnall : ins.argval ∉ a0 ++ introducedNames f.func_code)
    (hnb : ins.argval ∉ b)
    (hlook : (nl ++ f.func_globals).lookup ins.argval = none) :
    ∃ E, localscopeRun b p a0 ac f = .error (.localscopeError E) ∧
      ∃ v ∈ E, v.varName = ins.argval ∧
        v.message = s!"`{ins.argval}` is not in globals" := by
  obtain ⟨E, hE, v, hv, h1, h2⟩ :=
    localscopeRun_violation_present b p a0 ac f nl ins hclos hin hop hnall hnb
      (by simp [globalViolation, hlook])
  refine ⟨E, hE, v, hv, h1, ?_⟩
  rw [h2]
  simp [violationMessage, hlook]

/-- witness for C2 at the `test_missing_global` example. -/
theorem C2_unresolvable_global_reported_witness :
    ∃ E, localscopeRun defaultBuiltins ismodule [] false missingGlobalFn =
        .error (.localscopeError E) ∧
      ∃ v ∈ E, v.varName = "never_declared" ∧
        v.message = "`never_declared` is not in globals" :=
  C2_unresolvable_global_reported defaultBuiltins ismodule [] false
    missingGlobalFn [] ⟨"LOAD_GLOBAL", "never_declared", some 20⟩
    rfl (Or.inl (List.Mem.head _)) rfl (by decide) (by decide) rfl

/-- C3: a global name load whose name is present in the globals snapshot
but bound to a value the admission predicate rejects (with the default
predicate "is a module", e.g. a string) makes decoration raise the
aggregated error reporting the name as "not a permitted global". -/
theorem C3_rejected_global_value_reported (b : List String) (p : PyValue → Bool)
    (a0 : List String) (ac : Bool) (f : PyFunction)
    (nl : List (String × PyValue)) (ins : Instruction) (val : PyValue)
    (hclos : safelyGetClosureNonlocals f = .ok nl)
    (hin : InstrInCode ins f.func_code)
    (hop : ins.opname = "LOAD_GLOBAL")
    (hnall : ins.argval ∉ a0 ++ introducedNames f.func_code)
    (hnb : ins.argval ∉ b)
    (hlook : (nl ++ f.func_globals).lookup ins.argval = some val)
    (hpred : p val = false) :
    ∃ E, localscopeRun b p a0 ac f = .error (.localscopeError E) ∧
      ∃ v ∈ E, v.varName = ins.argval ∧
        v.message = s!"`{ins.argval}` is not a permitted global" := by
  obtain ⟨E, hE, v, hv, h1, h2⟩ :=
    localscopeRun_violation_present b p a0 ac f nl ins hclos hin hop hnall hnb
      (by simp [globalViolation, hlook, hpred])
  refine ⟨E, hE, v, hv, h1, ?_⟩
  rw [h2]
  simp [violationMessage, hlook]

/-- witness for C3 at the spec scenario: module name `a` bound to a
string under the default predicate. -/
theorem C3_rejected_global_value_reported_witness :
    ∃ E, localscopeRun defaultBuiltins ismodule [] false forbiddenGlobalFn =
        .error (.localscopeError E) ∧
      ∃ v ∈ E, v.varName = "a" ∧
        v.message = "`a` is not a permitted global" :=
  C3_rejected_global_value_reported defaultBuiltins ismodule [] false
    forbiddenGlobalFn [] ⟨"LOAD_GLOBAL", "a", some 1⟩ (.str "hello")
    rfl (Or.inl (List.Mem.head _)) rfl (by decide) (by decide) rfl rfl

theorem analyzeCode_toplevel_deref_present (b : List String) (p : PyValue → Bool)
    (g : List (String × PyValue)) (c : CodeObject) (a : List String)
    (e : List Violation) (ins : Instruction)
    (hin : ins ∈ c.instructions)
    (hop : ins.opname = "LOAD_DEREF")
    (hnall : ins.argval ∉ a ++ introducedNames c)
    (hnb : ins.argval ∉ b)
    (hviol : globalViolation g p ins.argval) :
    ∃ v ∈ (analyzeCode b p g false c a e).2,
      v.varName = ins.argval ∧ v.opname = "LOAD_DEREF" ∧
      v.message = violationMessage g ins.argval := by
  rcases c with ⟨nm, argc, kw, va, vn, fv, instrs, consts⟩
  simp only [CodeObject.instructions] at hin
  simp only [List.mem_append, introducedNames, not_or] at hnall
  simp only [analyzeCode]
  obtain ⟨v, hv, h1, h2, -, h3⟩ :=
    scanInstructions_violation_present b p g false nm ins instrs
      (a ++ (CodeObject.mk nm argc kw va vn fv instrs consts).argNames) e none hin
      (Or.inr ⟨rfl, hop⟩)
      (by simp only [List.mem_append, not_or]; tauto)
      hnb hviol
  refine ⟨v, ?_, h1, by rw [h2, hop], h3⟩
  rw [analyzeConsts_errors_append]
  exact List.mem_append_left _ hv

/-- counterexample to C4 as stated: under the default configuration
(predicate `inspect.ismodule`, closure flag unset) a free-variable load
whose cell holds a module is accepted, so the bound value's admissibility
under the predicate does decide the outcome, contrary to the claim that a
free-variable load is rejected regardless of it. -/
theorem C4_counterexample_module_closure_accepted :
    localscopeRun defaultBuiltins ismodule [] false moduleClosureFn =
      .ok moduleClosureFn := rfl

/-- C4 (amended): with the closure flag unset a free-variable load is
subject to the same checks as a global load — it is reported when the name
is not allowed, not a builtin, and either unresolvable or bound to a
predicate-rejected value in the merged snapshot — and with the flag set
every free-variable load is accepted without consulting the predicate
(no recorded violation is ever a `LOAD_DEREF`). -/
theorem C4_amended_closure_policy (b : List String) (p : PyValue → Bool)
    (g : List (String × PyValue)) (c : CodeObject) (a : List String)
    (e : List Violation) (ins : Instruction) :
    (ins ∈ c.instructions → ins.opname = "LOAD_DEREF" →
      ins.argval ∉ a ++ introducedNames c → ins.argval ∉ b →
      globalViolation g p ins.argval →
      ∃ v ∈ (analyzeCode b p g false c a e).2,
        v.varName = ins.argval ∧ v.opname = "LOAD_DEREF" ∧
        v.message = violationMessage g ins.argval) ∧
    (∀ v ∈ (analyzeCode b p g true c a []).2, v.opname = "LOAD_GLOBAL") := by
  constructor
  · intro hin hop hnall hnb hviol
    exact analyzeCode_toplevel_deref_present b p g c a e ins hin hop hnall hnb hviol
  · intro v hv
    rcases (analyzeCode_errors_characterize b p g c true a v hv).1 with h | ⟨hfalse, _⟩
    · exact h
    · cases hfalse

/-- witness for C4 (amended) at a free variable bound to a string: with
the flag unset the load is reported as not permitted; with the flag set
nothing is reported. -/
theorem C4_amended_closure_policy_witness :
    (∃ v ∈ (analyzeCode defaultBuiltins ismodule [("s", PyValue.str "hello")] false
        strClosureFn.func_code [] []).2,
      v.varName = "s" ∧ v.opname = "LOAD_DEREF" ∧
      v.message = violationMessage [("s", PyValue.str "hello")] "s") ∧
    (∀ v ∈ (analyzeCode defaultBuiltins ismodule [("s", PyValue.str "hello")] true
        strClosureFn.func_code [] []).2, v.opname = "LOAD_GLOBAL") :=
  ⟨(C4_amended_closure_policy defaultBuiltins ismodule [("s", PyValue.str "hello")]
      strClosureFn.func_code [] [] ⟨"LOAD_DEREF", "s", some 1⟩).1
      (List.Mem.head _) rfl (by decide) (by decide) rfl,
   (C4_amended_closure_policy defaultBuiltins ismodule [("s", PyValue.str "hello")]
      strClosureFn.func_code [] [] ⟨"LOAD_DEREF", "s", some 1⟩).2⟩

/-- C5: a violating global load located in a nested constant code object
is reported at decoration time; nested code objects are analyzed under the
closure-permitting policy (no recorded violation from the nested walk is a
`LOAD_DEREF`), and the allowed set accumulates across the recursive walk. -/
theorem C5_nested_code_objects_analyzed (b : List String) (p : PyValue → Bool)
    (a0 : List String) (ac : Bool) (f : PyFunction)
    (nl : List (String × PyValue)) (ins : Instruction)
    (hclos : safelyGetClosureNonlocals f = .ok nl)
    (hin : InstrInConsts ins f.func_code.constCodes)
    (hop : ins.opname = "LOAD_GLOBAL")
    (hnall : ins.argval ∉ a0 ++ introducedNames f.func_code)
    (hnb : ins.argval ∉ b)
    (hviol : globalViolation (nl ++ f.func_globals) p ins.argval) :
    (∃ E, localscopeRun b p a0 ac f = .error (.localscopeError E) ∧
      ∃ v ∈ E, v.varName = ins.argval ∧
        v.message = violationMessage (nl ++ f.func_globals) ins.argval) ∧
    (∀ (g : List (String × PyValue)) (cs : List CodeObject) (a : List String),
      ∀ v ∈ (analyzeConsts b p g cs a []).2, v.opname = "LOAD_GLOBAL") ∧
    (∀ (g : List (String × PyValue)) (cs : List CodeObject) (a : List String)
        (e : List Violation),
      (analyzeConsts b p g cs a e).1 = a ++ introducedNamesList cs) := by
  refine ⟨?_, ?_, ?_⟩
  · have hincode : InstrInCode ins f.func_code := by
      rcases hcode : f.func_code with ⟨nm, argc, kw, va, vn, fv, instrs, consts⟩
      rw [hcode] at hin
      simp only [CodeObject.constCodes] at hin
      simp only [InstrInCode]
      exact Or.inr hin
    exact localscopeRun_violation_present b p a0 ac f nl ins hclos hincode hop
      hnall hnb hviol
  · intro g cs a v hv
    exact (analyzeConsts_errors_characterize b p g cs a v hv).1
  · intro g cs a e
    exact analyzeConsts_allowed b p g cs a e

/-- witness for C5 at the `test_recursive_without_call` example: a nested
function body reads `forbidden_global` and the violation is reported even
though the nested code is never executed. -/
theorem C5_nested_code_objects_analyzed_witness :
    ∃ E, localscopeRun defaultBuiltins ismodule [] false nestedViolationFn =
        .error (.localscopeError E) ∧
      ∃ v ∈ E, v.varName = "forbidden_global" ∧
        v.message = violationMessage [("forbidden_global", PyValue.str "uuid")]
          "forbidden_global" :=
  (C5_nested_code_objects_analyzed defaultBuiltins ismodule [] false
    nestedViolationFn [] ⟨"LOAD_GLOBAL", "forbidden_global", some 3⟩
    rfl (Or.inl (Or.inl (List.Mem.head _))) rfl (by decide) (by decide) rfl).1

/-- C6: all violations across the whole recursive walk are collected and
raised in a single aggregated error after the walk completes — two
distinct violating loads are both present in the raised entry list — and
the exception exposes the flat list of offending names, one per record,
in record order. -/
theorem C6_all_violations_aggregated (b : List String) (p : PyValue → Bool)
    (a0 : List String) (ac : Bool) (f : PyFunction)
    (nl : List (String × PyValue)) (ins1 ins2 : Instruction)
    (hclos : safelyGetClosureNonlocals f = .ok nl)
    (hin1 : InstrInCode ins1 f.func_code)
    (hop1 : ins1.opname = "LOAD_GLOBAL")
    (hnall1 : ins1.argval ∉ a0 ++ introducedNames f.func_code)
    (hnb1 : ins1.argval ∉ b)
    (hviol1 : globalViolation (nl ++ f.func_globals) p ins1.argval)
    (hin2 : InstrInCode ins2 f.func_code)
    (hop2 : ins2.opname = "LOAD_GLOBAL")
    (hnall2 : ins2.argval ∉ a0 ++ introducedNames f.func_code)
    (hnb2 : ins2.argval ∉ b)
    (hviol2 : globalViolation (nl ++ f.func_globals) p ins2.argval) :
    ∃ E, localscopeRun b p a0 ac f = .error (.localscopeError E) ∧
      (∃ v ∈ E, v.varName = ins1.argval) ∧
      (∃ v ∈ E, v.varName = ins2.argval) ∧
      localscopeExceptionVars E = E.map (·.varName) ∧
      ins1.argval ∈ localscopeExceptionVars E ∧
      ins2.argval ∈ localscopeExceptionVars E := by
  obtain ⟨E1, hE1, v1, hv1, h11, -⟩ :=
    localscopeRun_violation_present b p a0 ac f nl ins1 hclos hin1 hop1 hnall1 hnb1 hviol1
  obtain ⟨E2, hE2, v2, hv2, h21, -⟩ :=
    localscopeRun_violation_present b p a0 ac f nl ins2 hclos hin2 hop2 hnall2 hnb2 hviol2
  rw [hE1] at hE2
  have hEE : E1 = E2 := by
    have := hE2
    simp only [Except.error.injEq, LsError.localscopeError.injEq] at this
    exact this
  subst hEE
  refine ⟨E1, hE1, ⟨v1, hv1, h11⟩, ⟨v2, hv2, h21⟩,
    localscopeExceptionVars_eq_map E1, ?_, ?_⟩
  · rw [localscopeExceptionVars_eq_map]
    exact List.mem_map.mpr ⟨v1, hv1, h11⟩
  · rw [localscopeExceptionVars_eq_map]
    exact List.mem_map.mpr ⟨v2, hv2, h21⟩

/-- witness for C6 at a function with two violating global reads: both
names appear in the raised error and in its `.vars` list. -/
theorem C6_all_violations_aggregated_witness :
    ∃ E, localscopeRun defaultBuiltins ismodule [] false twoViolationsFn =
        .error (.localscopeError E) ∧
      (∃ v ∈ E, v.varName = "a") ∧ (∃ v ∈ E, v.varName = "b") ∧
      localscopeExceptionVars E = E.map (·.varName) ∧
      "a" ∈ localscopeExceptionVars E ∧ "b" ∈ localscopeExceptionVars E :=
  C6_all_violations_aggregated defaultBuiltins ismodule [] false twoViolationsFn []
    ⟨"LOAD_GLOBAL", "a", some 1⟩ ⟨"LOAD_GLOBAL", "b", some 2⟩
    rfl (Or.inl (List.Mem.head _)) rfl (by decide) (by decide) rfl
    (Or.inl (List.Mem.tail _ (List.Mem.head _))) rfl (by decide) (by decide) trivial

/-- C7: the allowed set contains the code object's argument names (and,
through `argNames`, the variadic name when present) from before any
instruction is scanned — so no recorded violation ever names one of them —
every `STORE_DEREF` target is in the allowed set for the remainder of the
analysis, and the allowed set only ever grows. -/
theorem C7_allowed_set_seeding_and_growth (b : List String) (p : PyValue → Bool)
    (g : List (String × PyValue)) (ac : Bool) (c : CodeObject)
    (a : List String) (e : List Violation) :
    (∀ n ∈ a, n ∈ (analyzeCode b p g ac c a e).1) ∧
    (∀ n ∈ c.argNames, n ∈ (analyzeCode b p g ac c a e).1) ∧
    (∀ ins ∈ c.instructions, ins.opname = "STORE_DEREF" →
      ins.argval ∈ (analyzeCode b p g ac c a e).1) ∧
    (∀ v ∈ (analyzeCode b p g ac c a []).2,
      v.varName ∉ a ∧ v.varName ∉ c.argNames) := by
  refine ⟨?_, ?_, ?_, ?_⟩
  · intro n hn
    rw [analyzeCode_allowed]
    exact List.mem_append_left _ hn
  · intro n hn
    rw [analyzeCode_allowed]
    rcases c with ⟨nm, argc, kw, va, vn, fv, instrs, consts⟩
    refine List.mem_append_right _ ?_
    simp only [introducedNames, List.mem_append]
    exact Or.inl (Or.inl hn)
  · intro ins hins hop
    rw [analyzeCode_allowed]
    rcases c with ⟨nm, argc, kw, va, vn, fv, instrs, consts⟩
    simp only [CodeObject.instructions] at hins
    refine List.mem_append_right _ ?_
    simp only [introducedNames, List.mem_append]
    refine Or.inl (Or.inr ?_)
    simp only [storeDerefNames, List.mem_map, List.mem_filter]
    exact ⟨ins, ⟨hins, by simp [hop]⟩, rfl⟩
  · intro v hv
    have h := analyzeCode_errors_characterize b p g c ac a v hv
    exact ⟨h.2.1, h.2.2.1⟩

/-- witness for C7 at a code object with an argument, a stored cell
variable and one genuine violation. -/
theorem C7_allowed_set_seeding_and_growth_witness :
    "init" ∈ (analyzeCode defaultBuiltins ismodule [] false storeAndViolateCode
      ["init"] []).1 ∧
    "arg" ∈ (analyzeCode defaultBuiltins ismodule [] false storeAndViolateCode
      ["init"] []).1 ∧
    "x" ∈ (analyzeCode defaultBuiltins ismodule [] false storeAndViolateCode
      ["init"] []).1 ∧
    ("bad" ∉ (["init"] : List String) ∧ "bad" ∉ storeAndViolateCode.argNames) := by
  have h := C7_allowed_set_seeding_and_growth defaultBuiltins ismodule [] false
    storeAndViolateCode ["init"] []
  refine ⟨h.1 "init" (by decide), h.2.1 "arg" (by decide),
    h.2.2.1 ⟨"STORE_DEREF", "x", some 1⟩ (List.Mem.head _) rfl, ?_⟩
  have h4 := h.2.2.2 ⟨"`bad` is not in globals", "bad", "h", "LOAD_GLOBAL", some 2⟩
    (by decide)
  exact h4

/-- C8: every decoration through the same stored (parameterized) decorator
starts from a freshly constructed allowed set built from the stored
parameter only: the second of two decorations is identical to decorating
alone, and no name discovered during the first decoration (argument names,
stored cell variables) is in the initial allowed set of the second unless
it was among the stored allowed names. -/
theorem C8_fresh_allowed_set_per_decoration (b : List String)
    (d : PartialDecorator) (f1 f2 : PyFunction) :
    (decorateTwice b d f1 f2).2 = applyPartialDecorator b d f2 ∧
    decorationInitialAllowed d = d.allowed ∧
    (∀ n ∈ newlyDiscoveredNames b d f1, n ∉ decorationInitialAllowed d) := by
  refine ⟨rfl, rfl, ?_⟩
  intro n hn
  have := List.of_mem_filter hn
  simpa [decorationInitialAllowed] using this

/-- witness for C8: decorating `cleanFn` discovers `x`, which is not in
the initial allowed set of the next decoration through the same decorator. -/
theorem C8_fresh_allowed_set_per_decoration_witness :
    "x" ∉ decorationInitialAllowed
      ⟨ismodule, ["w"], false⟩ :=
  (C8_fresh_allowed_set_per_decoration defaultBuiltins
    ⟨ismodule, ["w"], false⟩ cleanFn cleanFn).2.2 "x" (by decide)

/-- C9: the closure resolver maps an empty cell to the `EmptyCell`
sentinel instead of raising, propagates only resolution failures other
than an empty cell, and decoration of a method whose only unusual feature
is the implicit empty `__class__` cell of zero-argument `super()`
succeeds. -/
theorem C9_empty_cells_tolerated (var msg : String) (v : PyValue)
    (hmsg : msg ≠ "Cell is empty") :
    resolveCellContents var (.valueError "Cell is empty") = .ok .emptyCellSentinel ∧
    resolveCellContents var (.ok v) = .ok v ∧
    resolveCellContents var (.valueError msg) =
      .error s!"Failed to retrieve `{var}` from closure." ∧
    localscopeRun defaultBuiltins ismodule [] false superMethodFn =
      .ok superMethodFn := by
  refine ⟨rfl, rfl, ?_, rfl⟩
  simp [resolveCellContents, hmsg]

/-- witness for C9 at a concrete cell failure message. -/
theorem C9_empty_cells_tolerated_witness :
    resolveCellContents "y" (.valueError "boom") =
      .error "Failed to retrieve `y` from closure." :=
  (C9_empty_cells_tolerated "y" "boom" .noneVal (by decide)).2.2.1

/-- C10: the allowed-set/builtin membership check is performed before the
globals lookup and the predicate, so no recorded violation ever names a
builtin (or an initially allowed name), even when the globals snapshot
binds that name to a predicate-rejected value; concretely, a module-level
string shadowing the builtin `print` is never flagged. -/
theorem C10_builtin_check_precedes_globals (b : List String) (p : PyValue → Bool)
    (g : List (String × PyValue)) (ac : Bool) (c : CodeObject) (a : List String) :
    ((analyzeCode b p g ac c a []).2.filter (fun v => decide (v.varName ∈ b))) = [] ∧
    ((analyzeCode b p g ac c a []).2.filter (fun v => decide (v.varName ∈ a))) = [] ∧
    localscopeRun defaultBuiltins ismodule [] false builtinShadowFn =
      .ok builtinShadowFn := by
  refine ⟨?_, ?_, rfl⟩
  · rw [List.filter_eq_nil_iff]
    intro v hv
    simp only [decide_eq_true_eq]
    exact (analyzeCode_errors_characterize b p g c ac a v hv).2.2.2.1
  · rw [List.filter_eq_nil_iff]
    intro v hv
    simp only [decide_eq_true_eq]
    exact (analyzeCode_errors_characterize b p g c ac a v hv).2.1
